import Mathlib

/-!
Verification of the line-grammar engine of
`convert_chase_cc_statement_pdf_to_tsv.py` (and, where a claim references it,
the earlier `convert_chase_cc_statement_pdf_to_csv.py` variant).

The Python source is shallowly embedded: input lines are `List String`
(the program materialises `pdftotext` output split on `"\n"`, so individual
lines never contain a newline character; the regex `$` anchor is therefore
modelled as end-of-string).  The source stores the line list reversed and pops
from the end for O(1) removal; we model the logical, in-order list.  Regular
expressions are embedded as executable functions over `List Char` with
Python `re.match` semantics: anchored at the start, backtracking
(exists-semantics for boolean matching, leftmost-greedy group extents where a
captured group's content matters).  Python `assert` failures and uncaught
exceptions are fatal conditions, modelled with `Except Fatal`.  Transaction
amounts are carried as their source tokens (the program converts them with
`float` after removing thousands separators; conversion failure raises
`ValueError`, modelled as a fatal condition, and no claim depends on the
numeric value itself).
-/

namespace ChaseStatement

/-- Fatal conditions: Python `assert` failures and uncaught exceptions that
abort the run. -/
inductive Fatal where
  /-- `month_day` constructor assert: month outside 1..12. -/
  | invalidMonth
  /-- `month_day` constructor assert: day outside 1..31. -/
  | invalidDay
  /-- `month_day_year` constructor assert: year outside 0..99. -/
  | invalidYear
  /-- `io_manager.add_year` assert: month absent from the month-year mapping. -/
  | unresolvedMonth
  /-- `transaction_record_parser.__call__` assert: 3rd line of a suspected
  foreign record matched but the 2nd line did not. -/
  | ambiguousForeignRecord
  /-- `float()` raised `ValueError` inside `str_to_float`. -/
  | valueError
  /-- "Input ended while consuming peeked lines" asserts (unreachable when the
  peeked line actually matched a nonempty pattern). -/
  | consumeAfterPeek
  /-- csv variant `statement_period_parser.__call__` assert: input exhausted
  before any statement-period line matched. -/
  | missingPeriod
deriving DecidableEq

/-! ## Value types (`month_day`, `month_day_year`, `period`, `transit_leg`) -/

/-- `month_day`: a MM/DD date (fields unconstrained; the constructor's range
asserts are modelled by `mkMonthDay`). -/
structure MonthDay where
  month : Nat
  day : Nat
deriving DecidableEq

/-- `month_day_year`: a MM/DD/YY date. -/
structure MonthDayYear where
  month : Nat
  day : Nat
  year : Nat
deriving DecidableEq

/-- `month_day.__init__`: asserts month in 1..12 and day in 1..31 (in that
order). -/
def mkMonthDay (m d : Nat) : Except Fatal MonthDay :=
  if m < 1 ∨ 12 < m then .error .invalidMonth
  else if d < 1 ∨ 31 < d then .error .invalidDay
  else .ok ⟨m, d⟩

/-- `month_day_year.__init__`: the base-class month/day asserts run first,
then the year assert (0..99). -/
def mkMonthDayYear (m d y : Nat) : Except Fatal MonthDayYear :=
  if m < 1 ∨ 12 < m then .error .invalidMonth
  else if d < 1 ∨ 31 < d then .error .invalidDay
  else if 99 < y then .error .invalidYear
  else .ok ⟨m, d, y⟩

/-- `period`: a closed range of two MM/DD/YY dates. -/
structure Period where
  opening : MonthDayYear
  closing : MonthDayYear
deriving DecidableEq

/-- `transit_leg`: code (1 letter), departure and arrival (3 letters each);
the constructor's length asserts hold by construction at every use site. -/
structure TransitLeg where
  code : String
  departure : String
  arrival : String
deriving DecidableEq

/-- The three transaction record classes, as a tagged union.  Decimal amounts
are carried as their source tokens (see the file comment). -/
inductive TransactionRecord where
  | domestic (date : MonthDayYear) (description : String) (amount : String)
  | foreign (date : MonthDayYear) (description : String) (amount : String)
      (exchangeDate : MonthDayYear) (exchangeCurrency : String)
      (exchangeAmount : String) (exchangeRate : String)
  | transit (date : MonthDayYear) (description : String) (amount : String)
      (transitId : Nat) (legs : List TransitLeg)
deriving DecidableEq

/-! ## `io_manager`: input stream and month-year mapping -/

/-- `io_manager.next`: consume and return the next line, or signal
exhaustion (`StopIteration` is modelled as `none`). -/
def nextLine : List String → Option (String × List String)
  | [] => none
  | l :: ls => some (l, ls)

/-- `io_manager.__getitem__`: access the `(n+1)`th unconsumed line without
consuming it; an empty string — never an exhaustion signal — when fewer than
`n+1` lines remain. -/
def peekLine (ls : List String) (n : Nat) : String :=
  if ls.length ≤ n then "" else ls.getD n ""

/-- `io_manager.month_year_mapping`: a month-number-to-year table. -/
def MonthYearMap : Type := Nat → Option Nat

/-- An empty month-year mapping (the `io_manager` constructor's `{}`). -/
def emptyMap : MonthYearMap := fun _ => none

/-- One entry update of the mapping (`self.month_year_mapping[t.month] =
t.year`), overwriting any existing entry. -/
def registerMY (t : MonthYearMap) (m y : Nat) : MonthYearMap :=
  fun m2 => if m2 = m then some y else t m2

/-- `io_manager.add_month_year_mapping` on a `period`: registers the opening
anchor, then the closing anchor. -/
def addMonthYearMappingPeriod (t : MonthYearMap) (p : Period) : MonthYearMap :=
  registerMY (registerMY t p.opening.month p.opening.year)
    p.closing.month p.closing.year

/-- `io_manager.add_year`: asserts the month is mapped, then builds a
`month_day_year` with the mapped year. -/
def addYear (t : MonthYearMap) (d : MonthDay) : Except Fatal MonthDayYear :=
  match t d.month with
  | none => .error .unresolvedMonth
  | some y => mkMonthDayYear d.month d.day y

/-! ## String utilities (`escape_str`, `str_to_float`) -/

/-- Control characters per `string_escaper`: code points 0..31 and 127..159. -/
def isControlChar (c : Char) : Bool :=
  decide (c.toNat < 32) || (decide (127 ≤ c.toNat) && decide (c.toNat ≤ 159))

/-- Lower-case hex digit (for `'{0:02x}'.format`). -/
def hexDigitChar (n : Nat) : Char :=
  if n < 10 then Char.ofNat ('0'.toNat + n) else Char.ofNat ('a'.toNat + (n - 10))

/-- `escape_str` on a character list: control characters become `\xHH`. -/
def escChars : List Char → List Char
  | [] => []
  | c :: cs =>
    (if isControlChar c then
        ['\\', 'x', hexDigitChar (c.toNat / 16 % 16), hexDigitChar (c.toNat % 16)]
      else [c]) ++ escChars cs

/-- `escape_str`: escape all control characters in a string. -/
def escapeStr (s : String) : String := ⟨escChars s.data⟩

/-- `str.replace(",", "")`. -/
def stripCommas (s : String) : String := ⟨s.data.filter (fun c => c != ',')⟩

/-- Python 2 whitespace stripped by `float()`. -/
def isPyWhitespace (c : Char) : Bool :=
  c == ' ' || c == '\t' || c == '\n' || c == '\r' ||
    c == Char.ofNat 11 || c == Char.ofNat 12

/-- Mantissa of a Python float literal: digits with at most one dot and at
least one digit, nothing else. -/
def pyMantissa (cs : List Char) : Bool :=
  cs.any Char.isDigit && cs.all (fun c => c.isDigit || c == '.') &&
    decide ((cs.filter (fun c => c == '.')).length ≤ 1)

/-- Exponent digits of a Python float literal, after `e`/`E`: optional sign
then a nonempty digit run. -/
def pyAfterExp : List Char → Bool
  | '+' :: r => !r.isEmpty && r.all Char.isDigit
  | '-' :: r => !r.isEmpty && r.all Char.isDigit
  | r => !r.isEmpty && r.all Char.isDigit

/-- Unsigned numeric Python float literal: mantissa with an optional
`e`/`E` exponent part.  (`inf`/`nan` forms are unreachable from the quantity
patterns, which require a leading digit, and are omitted.) -/
def pyNumeric (cs : List Char) : Bool :=
  pyMantissa cs ||
    (List.range cs.length).any fun i =>
      (cs.getD i 'x' == 'e' || cs.getD i 'x' == 'E') &&
        pyMantissa (cs.take i) && pyAfterExp (cs.drop (i + 1))

/-- Does `str_to_float` succeed on `s`?  Models
`float(s.replace(",", ""))`: strip commas, strip surrounding whitespace,
optional sign, then a numeric literal. -/
def strToFloatOk (s : String) : Bool :=
  let cs := (stripCommas s).data
  let cs := cs.dropWhile isPyWhitespace
  let cs := (cs.reverse.dropWhile isPyWhitespace).reverse
  let cs := match cs with
    | '-' :: r => r
    | '+' :: r => r
    | r => r
  pyNumeric cs

/-! ## The quantity pattern

`positive_quantity_rule = r'[0-9]{1,3}(?:' + r',' + r'[0-9]{3})*' + r'.' + '[0-9]*'`

NOTE the third concatenated piece is `r'.'`: an UNESCAPED regex dot, i.e. any
character except a newline — not a literal decimal point.  The embedding
reproduces this faithfully.  Boolean matchers below use exists-semantics,
which coincides with backtracking for whether a match is found. -/

/-- The tail `. [0-9]*` of the quantity pattern, anchored to the end: one
arbitrary non-newline character (the unescaped dot), then digits. -/
def pqTail : List Char → Bool
  | [] => false
  | c :: rest => (c != '\n') && rest.all Char.isDigit

/-- `(?:,[0-9]{3})*` followed by `pqTail`, anchored to the end. -/
def pqGroups : List Char → Bool
  | ',' :: d1 :: d2 :: d3 :: rest =>
    pqTail (',' :: d1 :: d2 :: d3 :: rest) ||
      (d1.isDigit && d2.isDigit && d3.isDigit && pqGroups rest)
  | cs => pqTail cs

/-- `positive_quantity_rule` matching a whole character list. -/
def matchPQ : List Char → Bool
  | [] => false
  | c1 :: rest =>
    c1.isDigit &&
      (pqGroups rest ||
        match rest with
        | [] => false
        | c2 :: rest2 =>
          c2.isDigit &&
            (pqGroups rest2 ||
              match rest2 with
              | [] => false
              | c3 :: rest3 => c3.isDigit && pqGroups rest3))

/-- `quantity_rule = r'-?' + positive_quantity_rule` matching a whole list
(a non-consumed `-` cannot start `[0-9]{1,3}`, so the option is forced). -/
def matchSignedPQ : List Char → Bool
  | '-' :: rest => matchPQ rest
  | cs => matchPQ cs

/-! ## Record grammars -/

/-- Captured groups of `domestic_transaction_record_rule`:
`(DD)/(DD) (.*) (-?PQ)$` with the month/day groups already through `int`. -/
structure DomesticGroups where
  mm : Nat
  dd : Nat
  desc : String
  amt : String
deriving DecidableEq

/-- Numeric value of a digit character. -/
def digitVal (c : Char) : Nat := c.toNat - '0'.toNat

/-- `int` of a two-digit group. -/
def twoDigitVal (a b : Char) : Nat := 10 * digitVal a + digitVal b

/-- Greedy split of `(.*) (-?PQ)$`: `(.*)` is maximal, so the split is at the
largest index `i` with a space at `i`, no newline before it, and the whole
suffix after it matching the signed quantity.  Returns (description, amount
group). -/
def descAmtSplit (cs : List Char) : Option (List Char × List Char) :=
  match (List.range cs.length).reverse.find? (fun i =>
      (cs.getD i '\n' == ' ') && (cs.take i).all (fun c => c != '\n') &&
        matchSignedPQ (cs.drop (i + 1))) with
  | some i => some (cs.take i, cs.drop (i + 1))
  | none => none

/-- `domestic_transaction_record_engine.match`:
`(DD)/(DD) (.*) (-?PQ)$`. -/
def domesticMatch (s : String) : Option DomesticGroups :=
  match s.data with
  | a :: b :: s1 :: c :: d :: s2 :: rest =>
    if a.isDigit && b.isDigit && (s1 == '/') && c.isDigit && d.isDigit &&
        (s2 == ' ') then
      match descAmtSplit rest with
      | some (de, amt) => some ⟨twoDigitVal a b, twoDigitVal c d, ⟨de⟩, ⟨amt⟩⟩
      | none => none
    else none
  | _ => none

/-- `exchange_date_and_currency_engine.match`: `(DD)/(DD) (.*)$` — the
greedy `(.*)` takes the whole remainder (no newline). -/
def exchangeDateCurrencyMatch (s : String) : Option (Nat × Nat × String) :=
  match s.data with
  | a :: b :: s1 :: c :: d :: s2 :: rest =>
    if a.isDigit && b.isDigit && (s1 == '/') && c.isDigit && d.isDigit &&
        (s2 == ' ') && rest.all (fun x => x != '\n') then
      some (twoDigitVal a b, twoDigitVal c d, ⟨rest⟩)
    else none
  | _ => none

/-- The fixed literal suffix ` (EXCHG RATE)` of the exchange-rate line. -/
def exchgSuffix : List Char :=
  [' ', '(', 'E', 'X', 'C', 'H', 'G', ' ', 'R', 'A', 'T', 'E', ')']

/-- Completion of `exchange_rate_calculation_rule` after group 1 ends at
index `i`: the literal ` X `, then group 2 (`positive_quantity_rule`), then
the literal ` (EXCHG RATE)` anchored at the end.  Returns group 2. -/
def rateCalcCompletion (cs : List Char) (i : Nat) : Option (List Char) :=
  if (cs.drop i).take 3 = [' ', 'X', ' '] then
    if exchgSuffix.isSuffixOf ((cs.drop i).drop 3) then
      if matchPQ (((cs.drop i).drop 3).take
          (((cs.drop i).drop 3).length - exchgSuffix.length)) then
        some (((cs.drop i).drop 3).take
          (((cs.drop i).drop 3).length - exchgSuffix.length))
      else none
    else none
  else none

/-- `exchange_rate_calculation_engine.match`:
`(-?PQ) X (PQ) [(]EXCHG RATE[)]$`.  Group 1 is greedy: its extent is the
largest prefix matching the signed quantity that admits a completion.
Returns (exchange amount group, exchange rate group). -/
def rateCalcMatch (s : String) : Option (String × String) :=
  match (List.range (s.data.length + 1)).reverse.find? (fun i =>
      matchSignedPQ (s.data.take i) &&
        (rateCalcCompletion s.data i).isSome) with
  | some i =>
    match rateCalcCompletion s.data i with
    | some b => some (⟨s.data.take i⟩, ⟨b⟩)
    | none => none
  | none => none

/-- `transit_leg_engine.match`:
`[0-9] ([A-Z]) ([A-Z]{3}) ([A-Z]{3})$` — the one-digit index is matched but
NOT captured. -/
def parseTransitLeg (s : String) : Option TransitLeg :=
  match s.data with
  | i :: s1 :: c :: s2 :: a1 :: a2 :: a3 :: s3 :: b1 :: b2 :: b3 :: [] =>
    if i.isDigit && (s1 == ' ') && c.isUpper && (s2 == ' ') &&
        a1.isUpper && a2.isUpper && a3.isUpper && (s3 == ' ') &&
        b1.isUpper && b2.isUpper && b3.isUpper then
      some ⟨⟨[c]⟩, ⟨[a1, a2, a3]⟩, ⟨[b1, b2, b3]⟩⟩
    else none
  | _ => none

/-- `int` of the six-digit transit id group. -/
def sixDigitVal (d1 d2 d3 d4 d5 d6 : Char) : Nat :=
  ((((digitVal d1 * 10 + digitVal d2) * 10 + digitVal d3) * 10 +
      digitVal d4) * 10 + digitVal d5) * 10 + digitVal d6

/-- `transit_leg_with_id_engine.match`: `([0-9]{6}) ` then the transit-leg
pattern. -/
def parseTransitLegWithId (s : String) : Option (Nat × TransitLeg) :=
  match s.data with
  | d1 :: d2 :: d3 :: d4 :: d5 :: d6 :: s1 :: rest =>
    if d1.isDigit && d2.isDigit && d3.isDigit && d4.isDigit && d5.isDigit &&
        d6.isDigit && (s1 == ' ') then
      match parseTransitLeg ⟨rest⟩ with
      | some leg => some (sixDigitVal d1 d2 d3 d4 d5 d6, leg)
      | none => none
    else none
  | _ => none

/-- The iterative additional-transit-leg loop: consume and collect while the
lookahead matches the transit-leg pattern; stop, without consuming, at the
first non-match (a peek at exhausted input yields `""`, which never
matches). -/
def collectLegs : List String → List TransitLeg × List String
  | [] => ([], [])
  | l :: ls =>
    match parseTransitLeg l with
    | some leg =>
      let r := collectLegs ls
      (leg :: r.1, r.2)
    | none => ([], l :: ls)

/-! ## Period and header grammars -/

/-- `month_day_year_rule`: `(DD)/(DD)/(DD)` at the front of a character
list; returns the three `int`ed groups and the remainder. -/
def parseMDY : List Char → Option ((Nat × Nat × Nat) × List Char)
  | a :: b :: s1 :: c :: d :: s2 :: e :: f :: rest =>
    if a.isDigit && b.isDigit && (s1 == '/') && c.isDigit && d.isDigit &&
        (s2 == '/') && e.isDigit && f.isDigit then
      some ((twoDigitVal a b, twoDigitVal c d, twoDigitVal e f), rest)
    else none
  | _ => none

/-- The literal lead of `period_meta_data_rule`. -/
def periodLit : List Char :=
  ['O', 'p', 'e', 'n', 'i', 'n', 'g', '/', 'C', 'l', 'o', 's', 'i', 'n', 'g',
    ' ', 'D', 'a', 't', 'e', ' ']

/-- Drop a literal character sequence from the front, or fail. -/
def dropLit : List Char → List Char → Option (List Char)
  | [], cs => some cs
  | _ :: _, [] => none
  | p :: ps, c :: cs => if c == p then dropLit ps cs else none

/-- `period_meta_data_engine.match` (identical to the csv variant's
`statement_period_rule`): `Opening/Closing Date MM/DD/YY - MM/DD/YY$`.
Returns the opening and closing date groups. -/
def parsePeriodLine (s : String) :
    Option ((Nat × Nat × Nat) × (Nat × Nat × Nat)) :=
  match dropLit periodLit s.data with
  | none => none
  | some rest =>
    match parseMDY rest with
    | none => none
    | some (o, rest2) =>
      match rest2 with
      | ' ' :: '-' :: ' ' :: rest3 =>
        match parseMDY rest3 with
        | some (c, []) => some (o, c)
        | _ => none
      | _ => none

/-- First line of the transaction header record. -/
def headerLine1 : String := "Date of"

/-- Second line of the transaction header record. -/
def headerLine2 : String :=
  "Transaction Merchant Name or Transaction Description $ Amount"

/-! ## Record-level sub-parsers (tsv variant) -/

/-- `period_meta_data_record_parser.__call__` with the bound
`add_month_year_mapping` action: peek the next line; on a match consume it,
construct the `period` (constructor asserts in source order) and register
both anchors.  `none` reports failure without consuming. -/
def periodRecordParse (t : MonthYearMap) (input : List String) :
    Except Fatal (Option (MonthYearMap × Period × List String)) :=
  match parsePeriodLine (peekLine input 0) with
  | none => .ok none
  | some ((om, od, oy), (cm, cd, cy)) =>
    match nextLine input with
    | none => .error .consumeAfterPeek
    | some (_, rest) =>
      match mkMonthDayYear om od oy with
      | .error e => .error e
      | .ok opening =>
        match mkMonthDayYear cm cd cy with
        | .error e => .error e
        | .ok closing =>
          let p : Period := ⟨opening, closing⟩
          .ok (some (addMonthYearMappingPeriod t p, p, rest))

/-- `transaction_header_record_parser.__call__`: two-line literal lookahead;
on a match consume both lines and produce the header value
`iom.next() + "\\n" + iom.next()` (a literal backslash-n).  The source
returns `None` (falsy) when only the first line matches; both no-match
outcomes are `none` here. -/
def headerParse (input : List String) :
    Except Fatal (Option (String × List String)) :=
  if peekLine input 0 = headerLine1 then
    if peekLine input 1 = headerLine2 then
      match nextLine input with
      | none => .error .consumeAfterPeek
      | some (l1, r1) =>
        match nextLine r1 with
        | none => .error .consumeAfterPeek
        | some (l2, r2) => .ok (some (⟨l1.data ++ '\\' :: 'n' :: l2.data⟩, r2))
    else .ok none
  else .ok none

/-- `transaction_record_parser.__call__`, in source order: match line 0
against the domestic pattern (failure consumes nothing); consume it; resolve
the date (`month_day` asserts, then `add_year`); escape the description and
convert the amount; then the 2-lines-ahead exchange-rate check (foreign,
with the fatal ambiguity assert on its 2nd line), else the transit-leg-with-id
check (transit, with the additional-leg loop), else domestic. -/
def transactionRecordParse (t : MonthYearMap) (input : List String) :
    Except Fatal (Option (TransactionRecord × List String)) :=
  match domesticMatch (peekLine input 0) with
  | none => .ok none
  | some g =>
    match nextLine input with
    | none => .error .consumeAfterPeek
    | some (_, input1) =>
      match mkMonthDay g.mm g.dd with
      | .error e => .error e
      | .ok md =>
        match addYear t md with
        | .error e => .error e
        | .ok date =>
          let description := escapeStr g.desc
          if !strToFloatOk g.amt then .error .valueError
          else
            match rateCalcMatch (peekLine input1 1) with
            | some (exAmt, exRate) =>
              match exchangeDateCurrencyMatch (peekLine input1 0) with
              | none => .error .ambiguousForeignRecord
              | some (emm, edd, ecur) =>
                match nextLine input1 with
                | none => .error .consumeAfterPeek
                | some (_, input2) =>
                  match nextLine input2 with
                  | none => .error .consumeAfterPeek
                  | some (_, input3) =>
                    match mkMonthDay emm edd with
                    | .error e => .error e
                    | .ok emd =>
                      match addYear t emd with
                      | .error e => .error e
                      | .ok exchangeDate =>
                        if !strToFloatOk exAmt then .error .valueError
                        else if !strToFloatOk exRate then .error .valueError
                        else .ok (some (.foreign date description g.amt
                          exchangeDate (escapeStr ecur) exAmt exRate, input3))
            | none =>
              match parseTransitLegWithId (peekLine input1 0) with
              | some (tid, leg1) =>
                match nextLine input1 with
                | none => .error .consumeAfterPeek
                | some (_, input2) =>
                  let r := collectLegs input2
                  .ok (some (.transit date description g.amt tid
                    (leg1 :: r.1), r.2))
              | none => .ok (some (.domestic date description g.amt, input1))

/-! ## The record state machine (`record_parser`) -/

/-- The four states of `record_parser`.  The `meta_data_parsers` list holds
exactly the period parser while in `META_DATA_STATE` and is emptied on its
success (which is also the `META_DATA → NON_TRANSACTION` transition), so the
list is determined by the state and is not modelled separately; its
non-emptiness assert cannot fire. -/
inductive PState where
  | metaData
  | nonTransaction
  | preTransaction
  | transaction
deriving DecidableEq

/-- Mutable state of a `record_parser` run: the parser state together with
the `io_manager`'s month-year mapping (written by the period parser's bound
action, read by `add_year`). -/
structure Machine where
  state : PState
  table : MonthYearMap

/-- The value passed to the `Action` on a successful sub-parse, tagged by the
sub-parser that produced it. -/
inductive Emitted where
  | period (p : Period)
  | header (s : String)
  | record (r : TransactionRecord)
  | noise (s : String)
deriving DecidableEq

/-- The shared fall-through of `record_parser.__call__`: try
`non_transaction_record_parser` (always succeeds on available input,
escaping the line); `false` — the only falsy result — reports input
exhaustion. -/
def fallthroughNoise (m : Machine) (input : List String) :
    Except Fatal (Bool × Machine × List String × Option Emitted) :=
  match nextLine input with
  | some (l, rest) => .ok (true, m, rest, some (.noise (escapeStr l)))
  | none => .ok (false, m, input, none)

/-- One invocation of `record_parser.__call__`: dispatch on the state, try
that state's sub-parser, transition on success; on failure fall through to
the non-transaction parser (in `TRANSACTION_STATE` the transition to
`NON_TRANSACTION_STATE` happens first, and the very line that failed the
transaction match is then consumed as noise by the same invocation). -/
def step (m : Machine) (input : List String) :
    Except Fatal (Bool × Machine × List String × Option Emitted) :=
  match m.state with
  | .metaData =>
    match periodRecordParse m.table input with
    | .error e => .error e
    | .ok (some (t2, p, rest)) =>
      .ok (true, ⟨.nonTransaction, t2⟩, rest, some (.period p))
    | .ok none => fallthroughNoise m input
  | .nonTransaction =>
    match headerParse input with
    | .error e => .error e
    | .ok (some (v, rest)) =>
      .ok (true, ⟨.preTransaction, m.table⟩, rest, some (.header v))
    | .ok none => fallthroughNoise m input
  | .preTransaction =>
    match transactionRecordParse m.table input with
    | .error e => .error e
    | .ok (some (r, rest)) =>
      .ok (true, ⟨.transaction, m.table⟩, rest, some (.record r))
    | .ok none => fallthroughNoise m input
  | .transaction =>
    match transactionRecordParse m.table input with
    | .error e => .error e
    | .ok (some (r, rest)) => .ok (true, m, rest, some (.record r))
    | .ok none => fallthroughNoise ⟨.nonTransaction, m.table⟩ input

/-! ## Consumption facts

These are needed to define the whole-statement run by well-founded recursion,
so they are stated as `def`s of proposition type ahead of it. -/

/-- Inversion for `nextLine`. -/
def nextLineSome : ∀ (input : List String) l ls,
    nextLine input = some (l, ls) → input = l :: ls := by
  intro input l ls h
  cases input with
  | nil => simp [nextLine] at h
  | cons a as => simp [nextLine] at h; simp [h.1, h.2]

/-- The additional-leg loop is `takeWhile`/`dropWhile` of the transit-leg
matcher. -/
def collectLegsEq : ∀ ls : List String,
    collectLegs ls =
      ((ls.takeWhile fun l => (parseTransitLeg l).isSome).filterMap
          parseTransitLeg,
        ls.dropWhile fun l => (parseTransitLeg l).isSome) := by
  intro ls
  induction ls with
  | nil => simp [collectLegs]
  | cons l ls ih =>
    cases h : parseTransitLeg l with
    | none => simp [collectLegs, h, List.takeWhile_cons, List.dropWhile_cons]
    | some leg =>
      simp [collectLegs, h, List.takeWhile_cons, List.dropWhile_cons, ih]

/-- The additional-leg loop never consumes past its input. -/
def collectLegsSuffix : ∀ ls : List String, (collectLegs ls).2 <:+ ls := by
  intro ls
  rw [collectLegsEq]
  exact List.dropWhile_suffix _

/-- A successful transaction-record parse consumes the lead line and leaves a
suffix of the remainder. -/
def trpConsumes : ∀ (t : MonthYearMap) (input : List String) r rest,
    transactionRecordParse t input = .ok (some (r, rest)) →
      ∃ l ls, input = l :: ls ∧ rest <:+ ls := by
  intro t input r rest h
  unfold transactionRecordParse at h
  split at h
  · simp at h
  · split at h
    · simp at h
    · rename_i g heq l input1 hnext
      have hin := nextLineSome _ _ _ hnext
      refine ⟨l, input1, hin, ?_⟩
      split at h
      · simp at h
      · split at h
        · simp at h
        · split at h
          · simp at h
          · split at h
            · split at h
              · simp at h
              · split at h
                · simp at h
                · rename_i l2 input2 hnext2
                  split at h
                  · simp at h
                  · rename_i l3 input3 hnext3
                    split at h
                    · simp at h
                    · split at h
                      · simp at h
                      · split at h
                        · simp at h
                        · split at h
                          · simp at h
                          · simp only [Except.ok.injEq, Option.some.injEq,
                              Prod.mk.injEq] at h
                            obtain ⟨-, hrest⟩ := h
                            subst hrest
                            have h2 := nextLineSome _ _ _ hnext2
                            have h3 := nextLineSome _ _ _ hnext3
                            subst h2
                            rw [h3]
                            exact (List.suffix_cons l3 input3).trans
                              (List.suffix_cons l2 (l3 :: input3))
            · split at h
              · split at h
                · simp at h
                · rename_i l2 input2 hnext2
                  simp only [Except.ok.injEq, Option.some.injEq,
                    Prod.mk.injEq] at h
                  obtain ⟨-, hrest⟩ := h
                  subst hrest
                  have h2 := nextLineSome _ _ _ hnext2
                  subst h2
                  exact (collectLegsSuffix input2).trans
                    (List.suffix_cons l2 input2)
              · simp only [Except.ok.injEq, Option.some.injEq,
                  Prod.mk.injEq] at h
                obtain ⟨-, hrest⟩ := h
                subst hrest
                exact List.suffix_refl input1

/-- A successful period parse consumes exactly the matched line. -/
def periodConsumes : ∀ (t : MonthYearMap) (input : List String) t2 p rest,
    periodRecordParse t input = .ok (some (t2, p, rest)) →
      ∃ l, input = l :: rest := by
  intro t input t2 p rest h
  unfold periodRecordParse at h
  split at h
  · simp at h
  · split at h
    · simp at h
    · rename_i l rest1 hnext
      have hin := nextLineSome _ _ _ hnext
      split at h
      · simp at h
      · split at h
        · simp at h
        · simp only [Except.ok.injEq, Option.some.injEq, Prod.mk.injEq] at h
          obtain ⟨-, -, hrest⟩ := h
          subst hrest
          exact ⟨l, hin⟩

/-- A successful header parse consumes exactly its two lines. -/
def headerConsumes : ∀ (input : List String) v rest,
    headerParse input = .ok (some (v, rest)) →
      ∃ l1 l2, input = l1 :: l2 :: rest := by
  intro input v rest h
  unfold headerParse at h
  split at h
  · split at h
    · split at h
      · simp at h
      · rename_i l1 r1 hnext1
        split at h
        · simp at h
        · rename_i l2 r2 hnext2
          simp only [Except.ok.injEq, Option.some.injEq, Prod.mk.injEq] at h
          obtain ⟨-, hrest⟩ := h
          subst hrest
          exact ⟨l1, l2, by rw [nextLineSome _ _ _ hnext1,
            nextLineSome _ _ _ hnext2]⟩
    · simp at h
  · simp at h

/-- Every true-returning invocation of the state-machine step strictly
shortens the unconsumed input, and the remainder is a suffix of it; a
false-returning invocation happens exactly at exhausted input, which it
leaves unchanged. -/
def stepConsumes : ∀ (m : Machine) (input : List String) b m2 rest em,
    step m input = .ok (b, m2, rest, em) →
      (b = true → rest <:+ input ∧ rest.length < input.length) ∧
        (b = false → input = [] ∧ rest = input) := by
  intro m input b m2 rest em h
  have noise : ∀ (mm : Machine),
      fallthroughNoise mm input = .ok (b, m2, rest, em) →
        (b = true → rest <:+ input ∧ rest.length < input.length) ∧
          (b = false → input = [] ∧ rest = input) := by
    intro mm hn
    unfold fallthroughNoise at hn
    split at hn
    · rename_i l ls hnext
      simp only [Except.ok.injEq, Prod.mk.injEq] at hn
      obtain ⟨hb, -, hrest, -⟩ := hn
      subst hb; subst hrest
      rw [nextLineSome _ _ _ hnext]
      exact ⟨fun _ => ⟨List.suffix_cons l ls, by simp⟩, fun hf => by simp at hf⟩
    · rename_i hnext
      simp only [Except.ok.injEq, Prod.mk.injEq] at hn
      obtain ⟨hb, -, hrest, -⟩ := hn
      subst hb; subst hrest
      cases input with
      | nil => exact ⟨fun ht => by simp at ht, fun _ => ⟨rfl, rfl⟩⟩
      | cons a as => simp [nextLine] at hnext
  unfold step at h
  split at h
  all_goals split at h
  · simp at h
  · rename_i heq
    simp only [Except.ok.injEq, Prod.mk.injEq] at h
    obtain ⟨hb, -, hrest, -⟩ := h
    subst hb; subst hrest
    obtain ⟨l, hin⟩ := periodConsumes _ _ _ _ _ heq
    subst hin
    exact ⟨fun _ => ⟨List.suffix_cons l _, by simp⟩,
      fun hf => by simp at hf⟩
  · exact noise _ h
  · simp at h
  · rename_i heq
    simp only [Except.ok.injEq, Prod.mk.injEq] at h
    obtain ⟨hb, -, hrest, -⟩ := h
    subst hb; subst hrest
    obtain ⟨l1, l2, hin⟩ := headerConsumes _ _ _ heq
    subst hin
    exact ⟨fun _ => ⟨⟨[l1, l2], rfl⟩, by simp only [List.length_cons]; omega⟩,
      fun hf => by simp at hf⟩
  · exact noise _ h
  · simp at h
  · rename_i heq
    simp only [Except.ok.injEq, Prod.mk.injEq] at h
    obtain ⟨hb, -, hrest, -⟩ := h
    subst hb; subst hrest
    obtain ⟨l, ls, hin, hsuf⟩ := trpConsumes _ _ _ _ heq
    subst hin
    refine ⟨fun _ => ⟨hsuf.trans (List.suffix_cons l ls), ?_⟩,
      fun hf => by simp at hf⟩
    have := hsuf.length_le
    simp only [List.length_cons]
    omega
  · exact noise _ h
  · simp at h
  · rename_i heq
    simp only [Except.ok.injEq, Prod.mk.injEq] at h
    obtain ⟨hb, -, hrest, -⟩ := h
    subst hb; subst hrest
    obtain ⟨l, ls, hin, hsuf⟩ := trpConsumes _ _ _ _ heq
    subst hin
    refine ⟨fun _ => ⟨hsuf.trans (List.suffix_cons l ls), ?_⟩,
      fun hf => by simp at hf⟩
    have := hsuf.length_le
    simp only [List.length_cons]
    omega
  · exact noise _ h

/-- The main loop `while p(iom, action): pass`: invoke the step until the
falsy result, recording how many lines each invocation consumed. -/
def runCounts (m : Machine) (input : List String) :
    Except Fatal (List Nat × Machine) :=
  match h : step m input with
  | .error e => .error e
  | .ok (false, m2, _, _) => .ok ([], m2)
  | .ok (true, m2, rest, _) =>
    match runCounts m2 rest with
    | .error e => .error e
    | .ok (ks, mf) => .ok ((input.length - rest.length) :: ks, mf)
termination_by input.length
decreasing_by
  exact ((stepConsumes m input true m2 rest _ h).1 rfl).2

/-! ## The csv variant's statement-period parser

`statement_period_parser.__call__` of
`convert_chase_cc_statement_pdf_to_csv.py`: consume lines until one matches
the (identical) statement-period pattern; input exhaustion before a match is
a fatal assert. -/

/-- csv `statement_period_parser.__call__`. -/
def csvStatementPeriodParse (input : List String) :
    Except Fatal ((MonthDayYear × MonthDayYear) × List String) :=
  match input with
  | [] => .error .missingPeriod
  | l :: ls =>
    match parsePeriodLine l with
    | none => csvStatementPeriodParse ls
    | some ((om, od, oy), (cm, cd, cy)) =>
      match mkMonthDayYear om od oy with
      | .error e => .error e
      | .ok o =>
        match mkMonthDayYear cm cd cy with
        | .error e => .error e
        | .ok c => .ok ((o, c), ls)

/-! ## Index-blindness relation (for the transit-leg index hyperproperty)

The one-digit transit-leg index is matched but not captured, so two lines
that are both in-pattern and differ only in that digit should be
indistinguishable to the transaction-record matcher. -/

/-- Two lines that are equal, or are both in-pattern transit-leg lines
(resp. transit-leg-with-id lines) differing only in the one-digit index. -/
inductive LineIdxEquiv : String → String → Prop where
  | refl (l : String) : LineIdxEquiv l l
  | leg (i1 i2 c a1 a2 a3 b1 b2 b3 : Char) :
      i1.isDigit = true → i2.isDigit = true → c.isUpper = true →
      a1.isUpper = true → a2.isUpper = true → a3.isUpper = true →
      b1.isUpper = true → b2.isUpper = true → b3.isUpper = true →
      LineIdxEquiv ⟨[i1, ' ', c, ' ', a1, a2, a3, ' ', b1, b2, b3]⟩
        ⟨[i2, ' ', c, ' ', a1, a2, a3, ' ', b1, b2, b3]⟩
  | legWithId (d1 d2 d3 d4 d5 d6 i1 i2 c a1 a2 a3 b1 b2 b3 : Char) :
      d1.isDigit = true → d2.isDigit = true → d3.isDigit = true →
      d4.isDigit = true → d5.isDigit = true → d6.isDigit = true →
      i1.isDigit = true → i2.isDigit = true → c.isUpper = true →
      a1.isUpper = true → a2.isUpper = true → a3.isUpper = true →
      b1.isUpper = true → b2.isUpper = true → b3.isUpper = true →
      LineIdxEquiv
        ⟨[d1, d2, d3, d4, d5, d6, ' ', i1, ' ', c, ' ', a1, a2, a3, ' ',
          b1, b2, b3]⟩
        ⟨[d1, d2, d3, d4, d5, d6, ' ', i2, ' ', c, ' ', a1, a2, a3, ' ',
          b1, b2, b3]⟩

/-- Outcomes of the transaction-record matcher on two index-equivalent
inputs: same error, same failure, or the same record with the cursor at the
same position over still index-equivalent remainders. -/
def recOutcomeEquiv :
    Except Fatal (Option (TransactionRecord × List String)) →
      Except Fatal (Option (TransactionRecord × List String)) → Prop
  | .error e1, .error e2 => e1 = e2
  | .ok none, .ok none => True
  | .ok (some (r1, rest1)), .ok (some (r2, rest2)) =>
    r1 = r2 ∧ rest1.length = rest2.length ∧
      List.Forall₂ LineIdxEquiv rest1 rest2
  | _, _ => False

/-- A concrete month-year mapping `{4: 16}` used as a fixture. -/
def tbl4 : MonthYearMap := registerMY emptyMap 4 16

/-! # Theorems -/

/-! ## Shared helper lemmas -/

theorem peekLine_zero (l : String) (ls : List String) :
    peekLine (l :: ls) 0 = l := by
  simp [peekLine]

theorem peekLine_one (l1 l2 : String) (ls : List String) :
    peekLine (l1 :: l2 :: ls) 1 = l2 := by
  simp [peekLine]

/-! ## Claim C7: the cursor -/

/-- Claim C7 (confirmed).  `next()` removes and returns the first unconsumed
line and signals exhaustion distinctly (as the `none` of an `Option`, never a
sentinel value); `peek(n)` returns the line `n` positions ahead without
consuming anything, and returns an empty string — never an exhaustion
signal — whenever fewer than `n+1` lines remain. -/
theorem c7_theorem :
    (nextLine ([] : List String) = none) ∧
      (∀ (l : String) (ls : List String), nextLine (l :: ls) = some (l, ls)) ∧
      (∀ (ls : List String) (n : Nat), ls.length ≤ n → peekLine ls n = "") ∧
      (∀ (ls : List String) (n : Nat) (h : n < ls.length),
        peekLine ls n = ls.get ⟨n, h⟩) := by
  refine ⟨rfl, fun l ls => rfl, fun ls n h => ?_, fun ls n h => ?_⟩
  · simp [peekLine, h]
  · rw [peekLine, if_neg (by omega)]
    exact List.getD_eq_get ls "" h

/-- Witness for C7 at a concrete cursor state. -/
theorem c7_witness :
    peekLine ["a", "b"] 5 = "" ∧ peekLine ["a", "b"] 1 = "b" :=
  ⟨c7_theorem.2.2.1 ["a", "b"] 5 (by decide),
    (c7_theorem.2.2.2 ["a", "b"] 1 (by decide)).trans rfl⟩

/-! ## Claim C6: the month-year resolver -/

/-- Claim C6 (confirmed).  For every month/day whose month is in the
month-to-year table (with an in-range year, as every registered year is),
`add_year` never fails and returns a `month_day_year` with the same month and
day and the table's year; for a month absent from the table it is fatal
(the unresolved-month assert); `register` is an idempotent overwrite of the
entry for that month. -/
theorem c6_theorem :
    (∀ (t : MonthYearMap) (m d y : Nat), 1 ≤ m → m ≤ 12 → 1 ≤ d → d ≤ 31 →
      y ≤ 99 → t m = some y → addYear t ⟨m, d⟩ = .ok ⟨m, d, y⟩) ∧
      (∀ (t : MonthYearMap) (m d : Nat), t m = none →
        addYear t ⟨m, d⟩ = .error .unresolvedMonth) ∧
      (∀ (t : MonthYearMap) (m y : Nat),
        registerMY (registerMY t m y) m y = registerMY t m y) ∧
      (∀ (t : MonthYearMap) (m y1 y2 : Nat),
        registerMY (registerMY t m y1) m y2 = registerMY t m y2) := by
  refine ⟨fun t m d y h1 h2 h3 h4 h5 ht => ?_, fun t m d ht => ?_,
    fun t m y => ?_, fun t m y1 y2 => ?_⟩
  · show (match t m with
      | none => Except.error Fatal.unresolvedMonth
      | some y => mkMonthDayYear m d y) = _
    rw [ht]
    show mkMonthDayYear m d y = _
    unfold mkMonthDayYear
    rw [if_neg (by omega), if_neg (by omega), if_neg (by omega)]
  · show (match t m with
      | none => Except.error Fatal.unresolvedMonth
      | some y => mkMonthDayYear m d y) = _
    rw [ht]
  · funext m2
    simp only [registerMY]
    split <;> rfl
  · funext m2
    simp only [registerMY]
    split <;> rfl

/-- Witness for C6 at the fixture table `{4: 16}`. -/
theorem c6_witness :
    addYear tbl4 ⟨4, 5⟩ = .ok ⟨4, 5, 16⟩ ∧
      addYear tbl4 ⟨5, 5⟩ = .error .unresolvedMonth :=
  ⟨c6_theorem.1 tbl4 4 5 16 (by decide) (by decide) (by decide) (by decide)
      (by decide) rfl,
    c6_theorem.2.1 tbl4 5 5 rfl⟩

/-! ## Claim C9: registration order of the period anchors -/

/-- Claim C9 (confirmed).  A successful period parse registers the opening
anchor first and the closing anchor second, so the closing month always maps
to the closing year afterwards; in particular, when opening and closing share
a month, that month maps to the closing date's year (the later registration
overwrites the earlier). -/
theorem c9_theorem :
    ∀ (t : MonthYearMap) (input : List String) t2 p rest,
      periodRecordParse t input = .ok (some (t2, p, rest)) →
        t2 p.closing.month = some p.closing.year ∧
          (p.opening.month = p.closing.month →
            t2 p.opening.month = some p.closing.year) := by
  intro t input t2 p rest h
  unfold periodRecordParse at h
  split at h
  · simp at h
  · split at h
    · simp at h
    · split at h
      · simp at h
      · split at h
        · simp at h
        · simp only [Except.ok.injEq, Option.some.injEq, Prod.mk.injEq] at h
          obtain ⟨ht2, hp, -⟩ := h
          subst ht2
          subst hp
          constructor
          · simp [addMonthYearMappingPeriod, registerMY]
          · intro hm
            rw [hm]
            simp [addMonthYearMappingPeriod, registerMY]

/-- Witness for C9 on a period whose opening and closing dates share the
month but not the year: the table maps the month to the closing year. -/
theorem c9_witness :
    addMonthYearMappingPeriod emptyMap
        ⟨⟨12, 15, 15⟩, ⟨12, 14, 16⟩⟩ 12 = some 16 ∧
      (12 = 12 →
        addMonthYearMappingPeriod emptyMap
          ⟨⟨12, 15, 15⟩, ⟨12, 14, 16⟩⟩ 12 = some 16) :=
  c9_theorem emptyMap ["Opening/Closing Date 12/15/15 - 12/14/16"]
    (addMonthYearMappingPeriod emptyMap ⟨⟨12, 15, 15⟩, ⟨12, 14, 16⟩⟩)
    ⟨⟨12, 15, 15⟩, ⟨12, 14, 16⟩⟩ [] rfl

/-! ## Claim C3: the decimal point of the quantity pattern -/

/-- Claim C3 (code_bug).  The claim — and the program's own grammar comments
("Parse a number in N,NNN.NN format", EBNF `positive_quantity ::= ... "."
[0-9]*`) — require a literal decimal point in the final amount token.  The
implementation concatenates `r'.'`, an UNESCAPED regex dot matching any
non-newline character, so the domestic pattern accepts a line whose final
token `"12"` contains no decimal point at all (the dot consumes the `'2'`). -/
theorem c3_theorem :
    domesticMatch "04/05 FOO 12" = some ⟨4, 5, "FOO", "12"⟩ ∧
      '.' ∉ "12".data := by
  constructor
  · decide
  · decide

/-! ## Claim C1: the Transaction-to-NonTransaction transition -/

/-- Counterexample to claim C1 as stated.  In the `Transaction` state with
the unmatched line `"junk"` as the next unconsumed line, the step consumes
that line (as non-transaction noise): the cursor after the step is `[]`, not
the unchanged `["junk"]`, so the line is not re-offered to the header matcher
on the next step. -/
theorem c1_counterexample :
    step ⟨.transaction, emptyMap⟩ ["junk"] =
      .ok (true, ⟨.nonTransaction, emptyMap⟩, [], some (.noise "junk")) ∧
      ([] : List String) ≠ ["junk"] :=
  ⟨rfl, by simp⟩

/-- Claim C1 (corrected).  In the `Transaction` state, when the
transaction-record matcher fails on the next unconsumed line, the step
transitions to `NonTransaction` and then — within the same invocation —
falls through to the non-transaction parser, which consumes that very line
as escaped noise; the header matcher is never offered it. -/
theorem c1_theorem :
    ∀ (t : MonthYearMap) (l0 : String) (ls : List String),
      domesticMatch l0 = none →
        step ⟨.transaction, t⟩ (l0 :: ls) =
          .ok (true, ⟨.nonTransaction, t⟩, ls,
            some (.noise (escapeStr l0))) := by
  intro t l0 ls h
  have htrp : transactionRecordParse t (l0 :: ls) = .ok none := by
    unfold transactionRecordParse
    rw [peekLine_zero, h]
  simp only [step, htrp, fallthroughNoise, nextLine]

/-- Witness for the corrected C1 at a concrete state. -/
theorem c1_witness :
    step ⟨.transaction, emptyMap⟩ ["x", "y"] =
      .ok (true, ⟨.nonTransaction, emptyMap⟩, ["y"],
        some (.noise (escapeStr "x"))) :=
  c1_theorem emptyMap "x" ["y"] (by decide)

/-! ## Claim C2: missing statement period -/

/-- Unfolding of the main loop when the step reports a fatal condition. -/
theorem runCounts_error (m : Machine) (input : List String) (e : Fatal)
    (h : step m input = .error e) : runCounts m input = .error e := by
  conv_lhs => unfold runCounts
  rw [h]

/-- Unfolding of the main loop at the falsy (exhaustion) step result. -/
theorem runCounts_false (m m2 : Machine) (input rest : List String)
    (em : Option Emitted) (h : step m input = .ok (false, m2, rest, em)) :
    runCounts m input = .ok ([], m2) := by
  conv_lhs => unfold runCounts
  rw [h]

/-- Unfolding of the main loop at a truthy step result. -/
theorem runCounts_true (m m2 : Machine) (input rest : List String)
    (em : Option Emitted) (h : step m input = .ok (true, m2, rest, em)) :
    runCounts m input =
      match runCounts m2 rest with
      | .error e => .error e
      | .ok (ks, mf) => .ok ((input.length - rest.length) :: ks, mf) := by
  conv_lhs => unfold runCounts
  rw [h]

/-- Counterexample to claim C2 as stated.  On the input `["x"]`, which
contains no statement-period line, the tsv state machine's run terminates
NORMALLY — the step returns the falsy result at exhaustion and the main loop
simply ends, still in the `MetaData` state, with no fatal error. -/
theorem c2_counterexample :
    parsePeriodLine "x" = none ∧
      runCounts ⟨.metaData, emptyMap⟩ ["x"] =
        .ok ([1], ⟨.metaData, emptyMap⟩) := by
  refine ⟨by decide, ?_⟩
  have h1 : step ⟨.metaData, emptyMap⟩ ["x"] =
      .ok (true, ⟨.metaData, emptyMap⟩, [], some (.noise "x")) := rfl
  have h0 : step ⟨.metaData, emptyMap⟩ [] =
      .ok (false, ⟨.metaData, emptyMap⟩, [], none) := rfl
  rw [runCounts_true _ _ _ _ _ h1, runCounts_false _ _ _ _ _ h0]
  rfl

/-- Claim C2 (corrected).  In the tsv program, an input with no
statement-period line leaves the machine in `MetaData` forever; every step
consumes one line as noise and the run terminates normally at exhaustion —
there is no fatal missing-period condition.  The fatal abort the claim
describes exists only in the csv variant, whose `statement_period_parser`
consumes lines until a match and hits `assert False` at exhaustion. -/
theorem c2_theorem :
    (∀ (t : MonthYearMap) (input : List String),
      (∀ l ∈ input, parsePeriodLine l = none) →
        runCounts ⟨.metaData, t⟩ input =
          .ok (List.replicate input.length 1, ⟨.metaData, t⟩)) ∧
      (∀ input : List String,
        (∀ l ∈ input, parsePeriodLine l = none) →
          csvStatementPeriodParse input = .error .missingPeriod) := by
  constructor
  · intro t input
    induction input with
    | nil =>
      intro _
      exact runCounts_false _ _ _ _ _ rfl
    | cons l ls ih =>
      intro hall
      have hl : parsePeriodLine l = none := hall l (by simp)
      have hstep : step ⟨.metaData, t⟩ (l :: ls) =
          .ok (true, ⟨.metaData, t⟩, ls, some (.noise (escapeStr l))) := by
        have hp : periodRecordParse t (l :: ls) = .ok none := by
          unfold periodRecordParse
          rw [peekLine_zero, hl]
        simp only [step, hp, fallthroughNoise, nextLine]
      rw [runCounts_true _ _ _ _ _ hstep,
        ih (fun x hx => hall x (by simp [hx]))]
      simp [List.replicate_succ]
  · intro input
    induction input with
    | nil => intro _; rfl
    | cons l ls ih =>
      intro hall
      have hl : parsePeriodLine l = none := hall l (by simp)
      unfold csvStatementPeriodParse
      rw [hl]
      exact ih fun x hx => hall x (by simp [hx])

/-- Witness for the corrected C2 on a concrete period-free input. -/
theorem c2_witness :
    runCounts ⟨.metaData, emptyMap⟩ ["a", "b"] =
      .ok ([1, 1], ⟨.metaData, emptyMap⟩) ∧
      csvStatementPeriodParse ["a", "b"] = .error .missingPeriod :=
  ⟨c2_theorem.1 emptyMap ["a", "b"] (by decide),
    c2_theorem.2 ["a", "b"] (by decide)⟩

/-! ## Claim C4: the ambiguous-foreign-record abort -/

/-- Claim C4 (confirmed).  After a successful domestic match on line 0
(whose date resolves and whose amount converts), if the line two ahead
matches the exchange-rate-calculation pattern but the line one ahead fails
the exchange-date-and-currency pattern, the transaction-record matcher hits
the fatal ambiguity assert — it never falls back to emitting a `Domestic`
record. -/
theorem c4_theorem :
    ∀ (t : MonthYearMap) (l0 l1 l2 : String) (rest : List String)
      (g : DomesticGroups) (md : MonthDay) (date : MonthDayYear),
      domesticMatch l0 = some g →
      mkMonthDay g.mm g.dd = .ok md →
      addYear t md = .ok date →
      strToFloatOk g.amt = true →
      (rateCalcMatch l2).isSome = true →
      exchangeDateCurrencyMatch l1 = none →
      transactionRecordParse t (l0 :: l1 :: l2 :: rest) =
        .error .ambiguousForeignRecord := by
  intro t l0 l1 l2 rest g md date hdm hmd hay hfl hrc hedc
  obtain ⟨pr, hrc2⟩ := Option.isSome_iff_exists.mp hrc
  rcases pr with ⟨exAmt, exRate⟩
  unfold transactionRecordParse
  simp only [peekLine_zero, peekLine_one, hdm, nextLine, hmd, hay, hfl,
    hrc2, hedc, Bool.not_true, Bool.false_eq_true, if_false]

/-- Witness for C4 at a concrete partial foreign record. -/
theorem c4_witness :
    transactionRecordParse tbl4
        ["04/05 FOO 10.00", "junk", "9.00 X 1.11111 (EXCHG RATE)"] =
      .error .ambiguousForeignRecord :=
  c4_theorem tbl4 "04/05 FOO 10.00" "junk" "9.00 X 1.11111 (EXCHG RATE)" []
    ⟨4, 5, "FOO", "10.00"⟩ ⟨4, 5⟩ ⟨4, 5, 16⟩ (by decide) rfl rfl (by decide)
    (by decide) (by decide)

/-! ## Claim C5: conservation of lines -/

/-- A suffix is a drop. -/
theorem suffix_eq_drop {α : Type} (l1 l : List α) (h : l1 <:+ l) :
    l1 = l.drop (l.length - l1.length) := by
  obtain ⟨pre, hpre⟩ := h
  subst hpre
  rw [List.length_append, Nat.add_sub_cancel, List.drop_left]

/-- Claim C5 (confirmed).  Every truthy step consumes at least one line and
leaves exactly a drop of its input (no line consumed twice or skipped); the
falsy result occurs exactly at exhausted input, which it leaves unchanged;
and over a complete (error-free) run the per-step consumption counts sum to
the total input length. -/
theorem c5_theorem :
    (∀ (m : Machine) (input : List String) m2 rest em,
      step m input = .ok (true, m2, rest, em) →
        ∃ k, 1 ≤ k ∧ rest = input.drop k) ∧
      (∀ (m : Machine) (input : List String) m2 rest em,
        step m input = .ok (false, m2, rest, em) →
          input = [] ∧ rest = input) ∧
      (∀ (m : Machine) (input : List String) ks mf,
        runCounts m input = .ok (ks, mf) → ks.sum = input.length) := by
  refine ⟨fun m input m2 rest em h => ?_, fun m input m2 rest em h => ?_,
    ?_⟩
  · obtain ⟨hsuf, hlt⟩ := (stepConsumes m input true m2 rest em h).1 rfl
    refine ⟨input.length - rest.length, by omega, ?_⟩
    exact suffix_eq_drop rest input hsuf
  · exact (stepConsumes m input false m2 rest em h).2 rfl
  · suffices H : ∀ (n : Nat) (m : Machine) (input : List String),
        input.length = n → ∀ ks mf,
          runCounts m input = .ok (ks, mf) → ks.sum = input.length by
      intro m input ks mf h
      exact H input.length m input rfl ks mf h
    intro n
    induction n using Nat.strong_induction_on with
    | _ n ih =>
      intro m input hlen ks mf h
      cases hs : step m input with
      | error e =>
        rw [runCounts_error _ _ _ hs] at h
        simp at h
      | ok out =>
        obtain ⟨b, m2, rest, em⟩ := out
        cases b with
        | false =>
          rw [runCounts_false _ _ _ _ _ hs] at h
          simp only [Except.ok.injEq, Prod.mk.injEq] at h
          obtain ⟨hks, -⟩ := h
          obtain ⟨hin, -⟩ := (stepConsumes m input false m2 rest em hs).2 rfl
          subst hin
          simp [← hks]
        | true =>
          rw [runCounts_true _ _ _ _ _ hs] at h
          cases hr : runCounts m2 rest with
          | error e => rw [hr] at h; simp at h
          | ok pr =>
            obtain ⟨ks2, mf2⟩ := pr
            rw [hr] at h
            simp only [Except.ok.injEq, Prod.mk.injEq] at h
            obtain ⟨hks, -⟩ := h
            obtain ⟨-, hlt⟩ := (stepConsumes m input true m2 rest em hs).1 rfl
            have hsum := ih rest.length (by omega) m2 rest rfl ks2 mf2 hr
            subst hlen
            rw [← hks]
            simp only [List.sum_cons, hsum]
            omega

/-- Witness for C5 at a concrete step and a concrete exhausted run. -/
theorem c5_witness :
    (∃ k, 1 ≤ k ∧ ([] : List String) = ["x"].drop k) ∧
      ([] : List Nat).sum = ([] : List String).length :=
  ⟨c5_theorem.1 ⟨.metaData, emptyMap⟩ ["x"] ⟨.metaData, emptyMap⟩ []
      (some (.noise "x")) rfl,
    c5_theorem.2.2 ⟨.metaData, emptyMap⟩ [] [] ⟨.metaData, emptyMap⟩
      (runCounts_false _ _ _ _ none rfl)⟩

/-! ## Claim C8: transit-leg collection -/

/-- Claim C8 (confirmed).  Every `Transit` record the transaction-record
matcher builds has a non-empty leg list in input order: the first leg comes
from the transit-leg-with-id line (the line right after the consumed lead
line), the following legs are exactly the maximal run of transit-leg-matching
lines after it (consumed in sequence), and the cursor stops at the first
non-matching line without consuming it. -/
theorem c8_theorem :
    ∀ (t : MonthYearMap) (input : List String) (date : MonthDayYear)
      (desc amt : String) (tid : Nat) (legs : List TransitLeg)
      (rest : List String),
      transactionRecordParse t input =
        .ok (some (.transit date desc amt tid legs, rest)) →
        legs ≠ [] ∧
          ∃ l0 l1 tail, input = l0 :: l1 :: tail ∧
            ∃ leg1, parseTransitLegWithId l1 = some (tid, leg1) ∧
              legs = leg1 ::
                (tail.takeWhile fun l =>
                  (parseTransitLeg l).isSome).filterMap parseTransitLeg ∧
              rest = tail.dropWhile fun l => (parseTransitLeg l).isSome := by
  intro t input date desc amt tid legs rest h
  unfold transactionRecordParse at h
  split at h
  · simp at h
  · split at h
    · simp at h
    · rename_i g hdm l0 input1 hnext
      have hin := nextLineSome _ _ _ hnext
      split at h
      · simp at h
      · split at h
        · simp at h
        · split at h
          · simp at h
          · split at h
            · split at h
              · simp at h
              · split at h
                · simp at h
                · split at h
                  · simp at h
                  · split at h
                    · simp at h
                    · split at h
                      · simp at h
                      · split at h
                        · simp at h
                        · split at h
                          · simp at h
                          · simp at h
            · split at h
              · rename_i tid0 leg1 hlid
                split at h
                · simp at h
                · rename_i l1 input2 hnext2
                  have hin2 := nextLineSome _ _ _ hnext2
                  simp only [Except.ok.injEq, Option.some.injEq,
                    Prod.mk.injEq, TransactionRecord.transit.injEq] at h
                  obtain ⟨⟨-, -, -, htid, hlegs⟩, hrest⟩ := h
                  subst hin2
                  subst hin
                  rw [peekLine_zero] at hlid
                  refine ⟨by rw [← hlegs]; simp, l0, l1, input2, rfl,
                    leg1, ?_, ?_, ?_⟩
                  · rw [hlid, htid]
                  · rw [← hlegs, collectLegsEq]
                  · rw [← hrest, collectLegsEq]
              · simp at h

/-- Witness for C8 on the two-leg transit record of the spec's Scenario 5. -/
theorem c8_witness :
    (([⟨"A", "JFK", "LGA"⟩, ⟨"B", "LGA", "JFK"⟩] : List TransitLeg) ≠ []) ∧
      ∃ l0 l1 tail,
        (["04/07 MTA 2.75", "123456 1 A JFK LGA", "2 B LGA JFK", "x"] :
            List String) = l0 :: l1 :: tail ∧
          ∃ leg1, parseTransitLegWithId l1 = some (123456, leg1) ∧
            ([⟨"A", "JFK", "LGA"⟩, ⟨"B", "LGA", "JFK"⟩] : List TransitLeg) =
              leg1 ::
                (tail.takeWhile fun l =>
                  (parseTransitLeg l).isSome).filterMap parseTransitLeg ∧
            ["x"] = tail.dropWhile fun l => (parseTransitLeg l).isSome :=
  c8_theorem tbl4 ["04/07 MTA 2.75", "123456 1 A JFK LGA", "2 B LGA JFK", "x"]
    ⟨4, 7, 16⟩ "MTA" "2.75" 123456
    [⟨"A", "JFK", "LGA"⟩, ⟨"B", "LGA", "JFK"⟩] ["x"] rfl

/-! ## Claim C10: the transit-leg index is not captured -/

theorem beq_false_of_isDigit_left (c x : Char) (hc : c.isDigit = true)
    (hx : x.isDigit = false) : (c == x) = false := by
  cases h : c == x with
  | false => rfl
  | true =>
    have he := eq_of_beq h
    subst he
    rw [hc] at hx
    cases hx

theorem ne_paren_of_isDigit (c : Char) (h : c.isDigit = true) : c ≠ '(' := by
  intro he
  rw [he] at h
  exact absurd h (by decide)

theorem ne_paren_of_isUpper (c : Char) (h : c.isUpper = true) : c ≠ '(' := by
  intro he
  rw [he] at h
  exact absurd h (by decide)

/-- The exchange-rate-calculation pattern cannot match a line without a
parenthesis. -/
theorem rateCalcMatch_eq_none (s : String) (hnp : ∀ x ∈ s.data, x ≠ '(') :
    rateCalcMatch s = none := by
  have hcomp : ∀ i, rateCalcCompletion s.data i = none := by
    intro i
    unfold rateCalcCompletion
    split
    · cases hsuf : exchgSuffix.isSuffixOf ((s.data.drop i).drop 3) with
      | false => simp [hsuf]
      | true =>
        exfalso
        have hsuffix : exchgSuffix <:+ (s.data.drop i).drop 3 :=
          List.isSuffixOf_iff_suffix.mp hsuf
        have hmem : '(' ∈ (s.data.drop i).drop 3 :=
          hsuffix.subset (by decide)
        exact hnp '('
          (List.drop_subset _ _ (List.drop_subset _ _ hmem)) rfl
    · rfl
  unfold rateCalcMatch
  split
  · rename_i i hfound
    rw [hcomp i]
  · rfl

/-- The one-digit index is matched but never captured: index-equivalent
lines are indistinguishable to every matcher of the transaction-record
grammar. -/
theorem lineIdxEquiv_matchers :
    ∀ l1 l2, LineIdxEquiv l1 l2 →
      domesticMatch l1 = domesticMatch l2 ∧
        rateCalcMatch l1 = rateCalcMatch l2 ∧
        exchangeDateCurrencyMatch l1 = exchangeDateCurrencyMatch l2 ∧
        parseTransitLeg l1 = parseTransitLeg l2 ∧
        parseTransitLegWithId l1 = parseTransitLegWithId l2 := by
  have hsp : (' ' : Char).isDigit = false := by decide
  intro l1 l2 h
  cases h with
  | refl l => exact ⟨rfl, rfl, rfl, rfl, rfl⟩
  | leg i1 i2 c a1 a2 a3 b1 b2 b3 hi1 hi2 hc ha1 ha2 ha3 hb1 hb2 hb3 =>
    refine ⟨?_, ?_, ?_, ?_, ?_⟩
    · simp [domesticMatch, hsp]
    · rw [rateCalcMatch_eq_none, rateCalcMatch_eq_none]
      · intro x hx
        simp only [List.mem_cons, List.not_mem_nil, or_false] at hx
        rcases hx with h | h | h | h | h | h | h | h | h | h | h
        all_goals first
          | (subst h; exact ne_paren_of_isDigit _ (by assumption))
          | (subst h; exact ne_paren_of_isUpper _ (by assumption))
          | (subst h; decide)
      · intro x hx
        simp only [List.mem_cons, List.not_mem_nil, or_false] at hx
        rcases hx with h | h | h | h | h | h | h | h | h | h | h
        all_goals first
          | (subst h; exact ne_paren_of_isDigit _ (by assumption))
          | (subst h; exact ne_paren_of_isUpper _ (by assumption))
          | (subst h; decide)
    · simp [exchangeDateCurrencyMatch, hsp]
    · simp [parseTransitLeg, hi1, hi2, hc, ha1, ha2, ha3, hb1, hb2, hb3]
    · simp [parseTransitLegWithId, hsp]
  | legWithId d1 d2 d3 d4 d5 d6 i1 i2 c a1 a2 a3 b1 b2 b3 hd1 hd2 hd3 hd4
      hd5 hd6 hi1 hi2 hc ha1 ha2 ha3 hb1 hb2 hb3 =>
    have hslash : (d3 == '/') = false :=
      beq_false_of_isDigit_left d3 '/' hd3 (by decide)
    refine ⟨?_, ?_, ?_, ?_, ?_⟩
    · simp [domesticMatch, hslash]
    · rw [rateCalcMatch_eq_none, rateCalcMatch_eq_none]
      · intro x hx
        simp only [List.mem_cons, List.not_mem_nil, or_false] at hx
        rcases hx with h | h | h | h | h | h | h | h | h | h | h | h | h
          | h | h | h | h | h
        all_goals first
          | (subst h; exact ne_paren_of_isDigit _ (by assumption))
          | (subst h; exact ne_paren_of_isUpper _ (by assumption))
          | (subst h; decide)
      · intro x hx
        simp only [List.mem_cons, List.not_mem_nil, or_false] at hx
        rcases hx with h | h | h | h | h | h | h | h | h | h | h | h | h
          | h | h | h | h | h
        all_goals first
          | (subst h; exact ne_paren_of_isDigit _ (by assumption))
          | (subst h; exact ne_paren_of_isUpper _ (by assumption))
          | (subst h; decide)
    · simp [exchangeDateCurrencyMatch, hslash]
    · rfl
    · simp [parseTransitLegWithId, parseTransitLeg, hd1, hd2, hd3, hd4, hd5,
        hd6, hi1, hi2, hc, ha1, ha2, ha3, hb1, hb2, hb3]

theorem peekLine_succ (l : String) (ls : List String) (n : Nat) :
    peekLine (l :: ls) (n + 1) = peekLine ls n := by
  simp [peekLine]

theorem forall2_peek (xs ys : List String)
    (h : List.Forall₂ LineIdxEquiv xs ys) :
    ∀ n, LineIdxEquiv (peekLine xs n) (peekLine ys n) := by
  induction h with
  | nil => exact fun n => .refl _
  | cons hl ht ih =>
    intro n
    cases n with
    | zero => rw [peekLine_zero, peekLine_zero]; exact hl
    | succ n => rw [peekLine_succ, peekLine_succ]; exact ih n

theorem forall2_collectLegs (xs ys : List String)
    (h : List.Forall₂ LineIdxEquiv xs ys) :
    (collectLegs xs).1 = (collectLegs ys).1 ∧
      List.Forall₂ LineIdxEquiv (collectLegs xs).2 (collectLegs ys).2 := by
  induction h with
  | nil => exact ⟨rfl, .nil⟩
  | cons hl ht ih =>
    rename_i a b as bs
    have hpl := (lineIdxEquiv_matchers _ _ hl).2.2.2.1
    cases hb : parseTransitLeg b with
    | none =>
      have ha : parseTransitLeg a = none := by rw [hpl, hb]
      constructor
      · show (collectLegs (a :: as)).1 = (collectLegs (b :: bs)).1
        simp only [collectLegs, ha, hb]
      · show List.Forall₂ _ (collectLegs (a :: as)).2 (collectLegs (b :: bs)).2
        simp only [collectLegs, ha, hb]
        exact .cons hl ht
    | some leg =>
      have ha : parseTransitLeg a = some leg := by rw [hpl, hb]
      constructor
      · show (collectLegs (a :: as)).1 = (collectLegs (b :: bs)).1
        simp only [collectLegs, ha, hb]
        rw [ih.1]
      · show List.Forall₂ _ (collectLegs (a :: as)).2 (collectLegs (b :: bs)).2
        simp only [collectLegs, ha, hb]
        exact ih.2

/-- Claim C10 (confirmed).  For any two input sequences that are pointwise
equal except for the one-digit index of in-pattern transit-leg lines, the
transaction-record matcher produces the same outcome: the same fatal error,
the same failure, or the identical record (same `transit_id`, same legs) with
the cursor at the same position. -/
theorem c10_theorem :
    ∀ (t : MonthYearMap) (input1 input2 : List String),
      List.Forall₂ LineIdxEquiv input1 input2 →
        recOutcomeEquiv (transactionRecordParse t input1)
          (transactionRecordParse t input2) := by
  intro t input1 input2 h
  cases h with
  | nil => exact trivial
  | cons hl ht =>
    rename_i a b as bs
    have hm := lineIdxEquiv_matchers _ _ hl
    unfold transactionRecordParse
    rw [peekLine_zero, peekLine_zero, hm.1]
    cases hdm : domesticMatch b with
    | none => simp only [hdm]; exact trivial
    | some g =>
      simp only [hdm, nextLine]
      cases hmd : mkMonthDay g.mm g.dd with
      | error e => simp only [hmd]; exact rfl
      | ok md =>
        simp only [hmd]
        cases hay : addYear t md with
        | error e => simp only [hay]; exact rfl
        | ok date =>
          simp only [hay]
          cases hfl : strToFloatOk g.amt with
          | false =>
            simp only [hfl, Bool.not_false, if_true]
            exact rfl
          | true =>
            simp only [hfl, Bool.not_true, Bool.false_eq_true, if_false]
            have hrc := (lineIdxEquiv_matchers _ _ (forall2_peek _ _ ht 1)).2.1
            rw [hrc]
            cases hrcv : rateCalcMatch (peekLine bs 1) with
            | some pr =>
              obtain ⟨exAmt, exRate⟩ := pr
              simp only [hrcv]
              have hedc :=
                (lineIdxEquiv_matchers _ _ (forall2_peek _ _ ht 0)).2.2.1
              rw [hedc]
              cases hedcv : exchangeDateCurrencyMatch (peekLine bs 0) with
              | none => simp only [hedcv]; exact rfl
              | some tri =>
                obtain ⟨emm, edd, ecur⟩ := tri
                simp only [hedcv]
                cases ht with
                | nil =>
                  rw [show rateCalcMatch (peekLine ([] : List String) 1) =
                    none from by decide] at hrcv
                  exact Option.noConfusion hrcv
                | cons hl2 ht2 =>
                  rename_i a2 b2 as2 bs2
                  simp only [nextLine]
                  cases ht2 with
                  | nil =>
                    rw [show peekLine [b2] 1 = "" from rfl] at hrcv
                    rw [show rateCalcMatch "" = none from by decide] at hrcv
                    exact Option.noConfusion hrcv
                  | cons hl3 ht3 =>
                    rename_i a3 b3 as3 bs3
                    simp only [nextLine]
                    cases hmd2 : mkMonthDay emm edd with
                    | error e => simp only [hmd2]; exact rfl
                    | ok emd =>
                      simp only [hmd2]
                      cases hay2 : addYear t emd with
                      | error e => simp only [hay2]; exact rfl
                      | ok exchangeDate =>
                        simp only [hay2]
                        cases hfl2 : strToFloatOk exAmt with
                        | false =>
                          simp only [hfl2, Bool.not_false, if_true]
                          exact rfl
                        | true =>
                          simp only [hfl2, Bool.not_true, Bool.false_eq_true, if_false]
                          cases hfl3 : strToFloatOk exRate with
                          | false =>
                            simp only [hfl3, Bool.not_false, if_true]
                            exact rfl
                          | true =>
                            simp only [hfl3, Bool.not_true, Bool.false_eq_true, if_false]
                            exact ⟨rfl, ht3.length_eq, ht3⟩
            | none =>
              simp only [hrcv]
              have hlid :=
                (lineIdxEquiv_matchers _ _ (forall2_peek _ _ ht 0)).2.2.2.2
              rw [hlid]
              cases hlidv : parseTransitLegWithId (peekLine bs 0) with
              | some pr =>
                obtain ⟨tid, leg1⟩ := pr
                simp only [hlidv]
                cases ht with
                | nil =>
                  rw [show parseTransitLegWithId
                    (peekLine ([] : List String) 0) = none from by decide]
                    at hlidv
                  exact Option.noConfusion hlidv
                | cons hl2 ht2 =>
                  rename_i a2 b2 as2 bs2
                  simp only [nextLine]
                  have hcl := forall2_collectLegs _ _ ht2
                  exact ⟨by rw [hcl.1], hcl.2.length_eq, hcl.2⟩
              | none =>
                simp only [hlidv]
                exact ⟨rfl, ht.length_eq, ht⟩

/-- Witness for C10: two transit records differing only in their leg index
digits parse to the identical record with the cursor in the same place. -/
theorem c10_witness :
    recOutcomeEquiv
      (transactionRecordParse tbl4
        ["04/07 MTA 2.75", "123456 1 A JFK LGA", "2 B LGA JFK", "x"])
      (transactionRecordParse tbl4
        ["04/07 MTA 2.75", "123456 7 A JFK LGA", "9 B LGA JFK", "x"]) :=
  c10_theorem tbl4
    ["04/07 MTA 2.75", "123456 1 A JFK LGA", "2 B LGA JFK", "x"]
    ["04/07 MTA 2.75", "123456 7 A JFK LGA", "9 B LGA JFK", "x"]
    (.cons (.refl _)
      (.cons (.legWithId '1' '2' '3' '4' '5' '6' '1' '7' 'A' 'J' 'F' 'K'
          'L' 'G' 'A' (by decide) (by decide) (by decide) (by decide)
          (by decide) (by decide) (by decide) (by decide) (by decide)
          (by decide) (by decide) (by decide) (by decide) (by decide)
          (by decide))
        (.cons (.leg '2' '9' 'B' 'L' 'G' 'A' 'J' 'F' 'K' (by decide)
            (by decide) (by decide) (by decide) (by decide) (by decide)
            (by decide) (by decide) (by decide))
          (.cons (.refl _) .nil))))

end ChaseStatement
